import Mathlib

/-!
Shallow embedding of `src/main.rs` (fiscal-XML organizer) for verification.

Paths are modelled as lists of components; the filesystem visible to the
copy phase is an association list from paths to file contents.  Machine
integers of the source (`i32`, `u32`) are modelled as `Int`/`Nat` with the
explicit range checks that `str::parse` performs.  Calendar dates (chrono
`NaiveDate`) are modelled as proleptic-Gregorian triples; chrono's finite
year range is abstracted away (irrelevant at every date the claims touch).
-/

/-- A calendar date, modelling `chrono::NaiveDate` (year, month 1..12, day). -/
structure Date where
  year : Int
  month : Nat
  day : Nat
  deriving DecidableEq, Repr

/-- Gregorian leap-year rule (as used by chrono). -/
def isLeap (y : Int) : Bool :=
  y % 4 == 0 && (y % 100 != 0 || y % 400 == 0)

/-- Days in a month of a given year (Gregorian). -/
def daysInMonth (y : Int) (m : Nat) : Nat :=
  if m = 2 then (if isLeap y then 29 else 28)
  else if m = 4 ∨ m = 6 ∨ m = 9 ∨ m = 11 then 30
  else 31

/-- Model of `chrono::NaiveDate::from_ymd_opt`: `some` exactly on a valid
calendar date. -/
def fromYmdOpt (y : Int) (m d : Nat) : Option Date :=
  if 1 ≤ m ∧ m ≤ 12 ∧ 1 ≤ d ∧ d ≤ daysInMonth y m then some ⟨y, m, d⟩ else none

/-- A `Date` value that denotes an actual calendar date. -/
def Date.valid (d : Date) : Bool :=
  decide (1 ≤ d.month) && decide (d.month ≤ 12) && decide (1 ≤ d.day)
    && decide (d.day ≤ daysInMonth d.year d.month)

/-- Strict order on dates (chrono's `Ord` on `NaiveDate`): lexicographic on
(year, month, day). -/
def Date.lt (a b : Date) : Bool :=
  decide (a.year < b.year) ||
    (decide (a.year = b.year) &&
      (decide (a.month < b.month) ||
        (decide (a.month = b.month) && decide (a.day < b.day))))

/-- The `while month <= 0 { month += 12; year -= 1 }` loop of
`six_months_ago_reference`, embedded with a fuel argument that provably
dominates the number of iterations (the loop raises `month` by 12 each
round, so `(1 - month).toNat` rounds always suffice). -/
def monthNormGo : Nat → Int → Int → Int × Int
  | 0, y, m => (y, m)
  | Nat.succ n, y, m => if m ≤ 0 then monthNormGo n (y - 1) (m + 12) else (y, m)

/-- Month/year normalization performed by the loop in
`six_months_ago_reference` (lines 103-106 of `main.rs`). -/
def monthNorm (y m : Int) : Int × Int :=
  monthNormGo (1 - m).toNat y m

/-- `six_months_ago_reference` (lines 97-108): first day of the month six
calendar months before `today`.  The source `unwrap`s the final
`from_ymd_opt`; the `none` branch of the model marks that panic site. -/
def six_months_ago_reference (today : Date) : Option Date :=
  let p := monthNorm today.year ((today.month : Int) - 6)
  fromYmdOpt p.1 p.2.toNat 1

/-- Numeric value of a digit string (no sign), most significant first. -/
def digitsToNat (s : List Char) : Nat :=
  s.foldl (fun acc c => acc * 10 + (c.toNat - 48)) 0

/-- Sign handling of Rust `str::parse` for signed integers: an optional
leading `+` or `-`. -/
def parseSign (s : List Char) : Bool × List Char :=
  match s with
  | [] => (false, [])
  | c :: r => if c = '-' then (true, r) else if c = '+' then (false, r) else (false, s)

/-- The digit body of Rust `str::parse`: nonempty, all ASCII digits. -/
def parseDigitsVal (s : List Char) : Option Nat :=
  if s ≠ [] ∧ s.all (·.isDigit) then some (digitsToNat s) else none

/-- Model of `str::parse::<i32>`: optional sign, digits, `i32` range check. -/
def parseI32 (s : List Char) : Option Int :=
  let p := parseSign s
  match parseDigitsVal p.2 with
  | none => none
  | some n =>
    let v : Int := if p.1 then -(n : Int) else (n : Int)
    if -(2 ^ 31) ≤ v ∧ v < 2 ^ 31 then some v else none

/-- Model of `str::parse::<u32>`: optional `+`, digits, `u32` range check. -/
def parseU32 (s : List Char) : Option Nat :=
  let t := match s with
    | [] => s
    | c :: r => if c = '+' then r else s
  match parseDigitsVal t with
  | none => none
  | some n => if n < 2 ^ 32 then some n else none

/-- Destination-path components (`std::path::PathBuf`, shallowly). -/
abbrev FsPath := List String

/-- The fixed model-code table of `determine_destination_for_xml`
(lines 118-129): 55 ↦ NFe, 57 ↦ CTe, 58 ↦ MDFe, 65 ↦ NFCe. -/
def modelTable (m : String) : Option String :=
  match m with
  | "55" => some "NFe"
  | "57" => some "CTe"
  | "58" => some "MDFe"
  | "65" => some "NFCe"
  | _ => none

/-- `determine_destination_for_xml` (lines 110-182).  Directory creation is
I/O and always succeeds in the model; the returned path is
`base` followed by the relative components the source joins onto it. -/
def determine_destination_for_xml (base : FsPath) (chave : String) (today : Date) :
    Option FsPath :=
  if chave.data.length ≠ 44 then none
  else
    match modelTable (String.mk ((chave.data.drop 20).take 2)) with
    | none => none
    | some mname =>
      if String.mk ((chave.data.drop 20).take 2) = "55"
          ∨ String.mk ((chave.data.drop 20).take 2) = "57" then
        match parseI32 ((chave.data.drop 2).take 2),
              parseU32 ((chave.data.drop 4).take 2) with
        | some yyv, some mmv =>
          if mmv < 1 ∨ 12 < mmv then none
          else
            match fromYmdOpt (2000 + yyv) mmv 1 with
            | none => none
            | some fileDate =>
              match six_months_ago_reference today with
              | none => none
              | some sixAgo =>
                some (base ++ (if Date.lt fileDate sixAgo
                  then [mname, "Mais de 6 meses"]
                  else [mname, "Menos de 6 meses"]))
        | _, _ => none
      else some (base ++ [mname])

/-- A window check of the regex `\d{44}` at the head of the string: the
next 44 characters exist and are all digits. -/
def windowOk (s : List Char) : Bool :=
  decide ((s.take 44).length = 44) && (s.take 44).all (·.isDigit)

/-- Leftmost-first scan of the regex engine for `(\d{44})`: try each start
position in order; at the first position whose next 44 characters are all
digits, capture exactly those 44 characters. -/
def chaveScan : List Char → Option (List Char)
  | [] => none
  | c :: r => if windowOk (c :: r) then some ((c :: r).take 44) else chaveScan r

/-- `find_chave_in_name` (lines 93-95): first regex match of `(\d{44})`. -/
def find_chave_in_name (name : String) : Option String :=
  (chaveScan name.data).map String.mk

/-- Maximal digit-run lengths of a string, in order (with harmless zero
entries at non-digit positions). `acc` is the length of the run in
progress. -/
def runLensAux : List Char → Nat → List Nat
  | [], acc => [acc]
  | c :: r, acc => if c.isDigit then runLensAux r (acc + 1) else acc :: runLensAux r 0

/-- Modelled from the spec: the spec's KeyExtractor contract speaks of "the
first maximal run of digits with length exactly 44"; this predicate holds
exactly when some maximal run of consecutive digits has length exactly 44.
It exists only to compare the spec's wording with the source's regex. -/
def hasMaximalRun44 (s : List Char) : Bool :=
  (runLensAux s 0).contains 44

/-- Substring test for `".."`, modelling `str::contains("..")` in
`safe_extract_zip` (line 199): two consecutive dots somewhere in the name. -/
def containsDD : List Char → Bool
  | [] => false
  | c :: r => (decide (c = '.') && headIsDot r) || containsDD r
where
  headIsDot : List Char → Bool
    | [] => false
    | c :: _ => decide (c = '.')

/-- `Path::is_absolute` on Unix: the name starts with a separator. -/
def isAbs : List Char → Bool
  | [] => false
  | c :: _ => decide (c = '/')

/-- Split a stored entry name on `/` (auxiliary: `acc` holds the current
component reversed). -/
def splitAux : List Char → List Char → List (List Char)
  | [], acc => [acc.reverse]
  | c :: r, acc => if c = '/' then acc.reverse :: splitAux r [] else splitAux r (c :: acc)

/-- Path components of a stored zip-entry name (empty components dropped,
as `Path::components` does for repeated separators). -/
def splitComps (s : List Char) : FsPath :=
  ((splitAux s []).filter (· ≠ [])).map String.mk

/-- One entry of a zip archive: its stored name, whether it is a directory
entry, and its byte content. -/
structure ZEntry where
  name : String
  isDir : Bool
  content : String
  deriving DecidableEq, Repr

/-- The rejection test of `safe_extract_zip` (line 199). -/
def entryUnsafe (e : ZEntry) : Bool :=
  containsDD e.name.data || isAbs e.name.data

/-- `safe_extract_zip` (lines 192-218) over the entry list of an archive:
returns the list of extracted file paths (the function's return value) and
the list of file writes performed, each rooted at `extractTo`.  Opening
the archive and per-write I/O errors are environment effects outside this
pure model (their catch behavior is modelled at the caller). -/
def safe_extract_zip (extractTo : FsPath) : List ZEntry → List FsPath × List (FsPath × String)
  | [] => ([], [])
  | e :: rest =>
    if entryUnsafe e then safe_extract_zip extractTo rest
    else
      let outpath := extractTo ++ splitComps e.name.data
      let p := safe_extract_zip extractTo rest
      if e.isDir then p else (outpath :: p.1, (outpath, e.content) :: p.2)

/-- A source file as the walk sees it: its path in the scanned tree and
the result of `file_name().and_then(|s| s.to_str())` (`none` models an
absent or non-UTF-8 file name). -/
structure SrcFile where
  path : FsPath
  fname : Option String
  deriving DecidableEq, Repr

/-- The destination filesystem visible to the copy phase: file path ↦
content. -/
abbrev FS := List (FsPath × String)

/-- `unique_dest` (lines 184-190): the candidate `dest_dir/file_name`, or
nothing when it already exists. -/
def unique_dest (fs : FS) (destDir : FsPath) (fileName : String) : Option FsPath :=
  let candidate := destDir ++ [fileName]
  if (fs.lookup candidate).isSome then none else some candidate

/-- `copy_file_to_dest` (lines 220-237).  `errAt` models the environment:
it says at which source paths `fs::copy` fails with an I/O error.  Returns
the source's `Option<io::Result<PathBuf>>` together with the destination
filesystem after the call. -/
def copy_file_to_dest (fs : FS) (errAt : FsPath → Bool) (src : SrcFile) (destDir : FsPath)
    (dryRun : Bool) : Option (Except String FsPath) × FS :=
  let fileName := src.fname.getD "file.xml"
  match unique_dest fs destDir fileName with
  | none => (none, fs)
  | some dest =>
    if dryRun then (some (Except.ok dest), fs)
    else if errAt src.path then (some (Except.error "io error"), fs)
    else (some (Except.ok dest), (dest, ((fs.lookup src.path).getD "")) :: fs)

/-- The environment in which no copy fails. -/
def noErr : FsPath → Bool := fun _ => false

/-- A queued copy task: source file and destination directory. -/
structure CopyTask where
  src : SrcFile
  destDir : FsPath
  deriving DecidableEq, Repr

/-- The copy phase of `process_root` (lines 294-298): run every task,
logging (and otherwise ignoring) per-task errors. -/
def runCopies (errAt : FsPath → Bool) (dryRun : Bool) : FS → List CopyTask → FS
  | fs, [] => fs
  | fs, t :: rest =>
    runCopies errAt dryRun (copy_file_to_dest fs errAt t.src t.destDir dryRun).2 rest

/-- `path.extension()` composed with lowercasing, from a file name:
the part after the last dot, `""` when there is none (or the only dot is
the leading one, where Rust reports no extension). -/
def extRev : List Char → List Char → Option (List Char)
  | [], _ => none
  | c :: r, acc => if c = '.' then (if r = [] then none else some acc) else extRev r (c :: acc)

/-- Lowercased extension of a file name (`unwrap_or("").to_lowercase()`). -/
def extLower (name : String) : String :=
  match extRev name.data.reverse [] with
  | none => ""
  | some e => String.mk (e.map Char.toLower)

/-- One unit of the directory walk in a run whose `tempdir()` calls all
succeed: a regular (non-zip) file, or a zip archive abstracted by its
extraction outcome — either an error from `safe_extract_zip` or the list
of extracted members (as source files in the archive's temporary
directory).  The early-return abort of `let td = tempdir()?` (line 255)
is modelled separately by `WalkItemFull` and `process_root_full` below. -/
inductive WalkItem where
  | reg (f : SrcFile)
  | zipArch (res : Except String (List SrcFile))
  deriving Repr

/-- The tasks queued for one scanned non-zip file (lines 275-285): suffix
must be `xml`, the name must contain a 44-digit key, and the key must
classify. -/
def tasksOfFile (base : FsPath) (today : Date) (f : SrcFile) : List CopyTask :=
  match f.fname with
  | none => []
  | some name =>
    if extLower name = "xml" then
      match find_chave_in_name name with
      | none => []
      | some chave =>
        match determine_destination_for_xml base chave today with
        | none => []
        | some destDir => [⟨f, destDir⟩]
    else []

/-- The tasks queued for the extracted members of one zip (lines 257-268):
extension compared case-insensitively to `xml`, key searched in the member
name (`unwrap_or("")` on a missing name). -/
def tasksOfMembers (base : FsPath) (today : Date) : List SrcFile → List CopyTask
  | [] => []
  | m :: rest =>
    (if (match m.fname with
          | none => false
          | some n => extLower n = "xml") then
      match find_chave_in_name ((m.fname.getD "")) with
      | none => []
      | some chave =>
        match determine_destination_for_xml base chave today with
        | none => []
        | some destDir => [⟨m, destDir⟩]
    else []) ++ tasksOfMembers base today rest

/-- Tasks queued for one walk item (lines 249-286): a failed extraction is
logged and contributes nothing; the walk continues. -/
def tasksOfItem (base : FsPath) (today : Date) : WalkItem → List CopyTask
  | .reg f => tasksOfFile base today f
  | .zipArch (.error _) => []
  | .zipArch (.ok members) => tasksOfMembers base today members

/-- The scan phase of `process_root` (lines 247-287). -/
def scanItems (base : FsPath) (today : Date) : List WalkItem → List CopyTask
  | [] => []
  | it :: rest => tasksOfItem base today it ++ scanItems base today rest

/-- `process_root` (lines 239-302) restricted to runs in which every
`tempdir()` call at line 255 succeeds: scan, report the task total, run
the copies.  Returns the reported total and the final destination
filesystem.  The `?` early return on `tempdir()` failure is modelled by
`process_root_full` below, which refines this function. -/
def process_root (fs : FS) (errAt : FsPath → Bool) (base : FsPath) (today : Date)
    (dryRun : Bool) (items : List WalkItem) : Nat × FS :=
  let tasks := scanItems base today items
  (tasks.length, runCopies errAt dryRun fs tasks)

/-- One unit of the directory walk with the `tempfile::tempdir()` outcome
of line 255 made explicit for zip archives: the outer `Except` is the
temp-dir creation (whose failure the source propagates with `?`, aborting
`process_root`), the inner one the `safe_extract_zip` result (whose
failure is caught and logged at lines 270-272). -/
inductive WalkItemFull where
  | reg (f : SrcFile)
  | zipArch (td : Except String (Except String (List SrcFile)))
  deriving Repr

/-- Inclusion of the tempdir-success runs into the full model: every zip's
temp-dir creation succeeded. -/
def ofWalkItem : WalkItem → WalkItemFull
  | .reg f => .reg f
  | .zipArch res => .zipArch (.ok res)

/-- The scan phase of `process_root` with the `tempdir()?` abort of line
255: a failing temp-dir creation stops the walk and propagates its error
(dropping the tasks queued so far, as the source's early `return Err`
does); a failing extraction is caught and contributes no tasks. -/
def scanItemsFull (base : FsPath) (today : Date) :
    List WalkItemFull → Except String (List CopyTask)
  | [] => .ok []
  | .reg f :: rest =>
    match scanItemsFull base today rest with
    | .error e => .error e
    | .ok ts => .ok (tasksOfFile base today f ++ ts)
  | .zipArch (.error e) :: _ => .error e
  | .zipArch (.ok res) :: rest =>
    match scanItemsFull base today rest with
    | .error e => .error e
    | .ok ts =>
      .ok ((match res with
            | .error _ => []
            | .ok members => tasksOfMembers base today members) ++ ts)

/-- `process_root` (lines 239-302) with its `io::Result` return: a
`tempdir()` failure at line 255 escapes the per-zip unit of work via `?`
and aborts the run before the task total is printed (and propagates out
of `main` at line 322); otherwise the run completes, reporting the task
total, and runs the copy phase. -/
def process_root_full (fs : FS) (errAt : FsPath → Bool) (base : FsPath) (today : Date)
    (dryRun : Bool) (items : List WalkItemFull) : Except String (Nat × FS) :=
  match scanItemsFull base today items with
  | .error e => .error e
  | .ok tasks => .ok (tasks.length, runCopies errAt dryRun fs tasks)

/-! ### Helper lemmas: digits and parsing -/

lemma isDigit_range (c : Char) (h : c.isDigit = true) : 48 ≤ c.toNat ∧ c.toNat ≤ 57 := by
  simp [Char.isDigit] at h
  exact ⟨h.1, h.2⟩

lemma isDigit_ne_sign (c : Char) (h : c.isDigit = true) : c ≠ '-' ∧ c ≠ '+' := by
  constructor <;> rintro rfl <;> exact absurd h (by decide)

lemma digitsToNat_pair (a b : Char) :
    digitsToNat [a, b] = (a.toNat - 48) * 10 + (b.toNat - 48) := by
  simp [digitsToNat, List.foldl]

lemma digitsToNat_pair_le (a b : Char) (ha : a.isDigit = true) (hb : b.isDigit = true) :
    digitsToNat [a, b] ≤ 99 := by
  have h1 := isDigit_range a ha
  have h2 := isDigit_range b hb
  rw [digitsToNat_pair]
  omega

lemma parseDigitsVal_pair (a b : Char) (ha : a.isDigit = true) (hb : b.isDigit = true) :
    parseDigitsVal [a, b] = some (digitsToNat [a, b]) := by
  simp [parseDigitsVal, ha, hb]

lemma parseSign_pair (a b : Char) (ha : a.isDigit = true) :
    parseSign [a, b] = (false, [a, b]) := by
  have h := isDigit_ne_sign a ha
  simp [parseSign, h.1, h.2]

lemma parseI32_pair (a b : Char) (ha : a.isDigit = true) (hb : b.isDigit = true) :
    parseI32 [a, b] = some ((digitsToNat [a, b] : Int)) := by
  have hle := digitsToNat_pair_le a b ha hb
  simp only [parseI32, parseSign_pair a b ha, parseDigitsVal_pair a b ha hb,
    Bool.false_eq_true, if_false]
  rw [if_pos (by omega)]

lemma parseU32_pair (a b : Char) (ha : a.isDigit = true) (hb : b.isDigit = true) :
    parseU32 [a, b] = some (digitsToNat [a, b]) := by
  have h := isDigit_ne_sign a ha
  have hle := digitsToNat_pair_le a b ha hb
  simp only [parseU32]
  rw [if_neg h.2, parseDigitsVal_pair a b ha hb]
  show (if digitsToNat [a, b] < 2 ^ 32 then some (digitsToNat [a, b]) else none)
      = some (digitsToNat [a, b])
  rw [if_pos (by omega)]

lemma slice2 (l : List Char) (a : Nat) (hlen : l.length = 44) (ha : a + 2 ≤ 44)
    (hdig : l.all (·.isDigit) = true) :
    ∃ x y, (l.drop a).take 2 = [x, y] ∧ x.isDigit = true ∧ y.isDigit = true := by
  have hlen2 : ((l.drop a).take 2).length = 2 := by
    simp [List.length_take, List.length_drop, hlen]
    omega
  obtain ⟨x, y, hxy⟩ := List.length_eq_two.mp hlen2
  refine ⟨x, y, hxy, ?_, ?_⟩ <;>
  · apply List.all_eq_true.mp hdig
    apply List.drop_subset a
    apply List.take_subset
    rw [hxy]
    simp

/-! ### Helper lemmas: dates -/

lemma monthNorm_of_valid (y m : Int) (h1 : 1 ≤ m) (h2 : m ≤ 12) :
    monthNorm y (m - 6) = if 6 < m then (y, m - 6) else (y - 1, m + 6) := by
  interval_cases m <;> norm_num [monthNorm, monthNormGo]

lemma daysInMonth_pos (y : Int) (m : Nat) : 1 ≤ daysInMonth y m := by
  unfold daysInMonth
  split
  · split <;> omega
  · split <;> omega

lemma fromYmdOpt_day1 (y : Int) (m : Nat) (h1 : 1 ≤ m) (h2 : m ≤ 12) :
    fromYmdOpt y m 1 = some ⟨y, m, 1⟩ := by
  have hd := daysInMonth_pos y m
  simp [fromYmdOpt, h1, h2, hd]

lemma date_valid_bounds (d : Date) (hv : d.valid = true) :
    1 ≤ d.month ∧ d.month ≤ 12 := by
  simp [Date.valid] at hv
  exact ⟨hv.1.1.1, hv.1.1.2⟩

lemma six_months_eq (d : Date) (hv : d.valid = true) :
    six_months_ago_reference d
      = some ⟨if 6 < d.month then d.year else d.year - 1,
              if 6 < d.month then d.month - 6 else d.month + 6, 1⟩ := by
  obtain ⟨hm1, hm2⟩ := date_valid_bounds d hv
  unfold six_months_ago_reference
  rw [monthNorm_of_valid d.year (d.month : Int) (by exact_mod_cast hm1) (by exact_mod_cast hm2)]
  by_cases h6 : 6 < d.month
  · rw [if_pos (by exact_mod_cast h6), if_pos h6, if_pos h6]
    have ht : ((d.month : Int) - 6).toNat = d.month - 6 := by omega
    simp only [ht]
    exact fromYmdOpt_day1 _ _ (by omega) (by omega)
  · rw [if_neg (by exact_mod_cast h6), if_neg h6, if_neg h6]
    have ht : ((d.month : Int) + 6).toNat = d.month + 6 := by omega
    simp only [ht]
    exact fromYmdOpt_day1 _ _ (by omega) (by omega)

/-! ### Helper lemmas: classification -/

lemma determine_bucketed
    (base : FsPath) (chave : String) (today : Date) (r : Date) (nm : String)
    (hlen : chave.data.length = 44) (hdig : chave.data.all (·.isDigit) = true)
    (hm : modelTable (String.mk ((chave.data.drop 20).take 2)) = some nm)
    (hm2 : String.mk ((chave.data.drop 20).take 2) = "55"
         ∨ String.mk ((chave.data.drop 20).take 2) = "57")
    (hmm1 : 1 ≤ digitsToNat ((chave.data.drop 4).take 2))
    (hmm2 : digitsToNat ((chave.data.drop 4).take 2) ≤ 12)
    (hr : six_months_ago_reference today = some r) :
    determine_destination_for_xml base chave today
      = some (base ++
          (if Date.lt ⟨2000 + (digitsToNat ((chave.data.drop 2).take 2) : Int),
                      digitsToNat ((chave.data.drop 4).take 2), 1⟩ r
           then [nm, "Mais de 6 meses"] else [nm, "Menos de 6 meses"])) := by
  obtain ⟨x2, y2, hs2, hx2, hy2⟩ := slice2 chave.data 2 hlen (by omega) hdig
  obtain ⟨x4, y4, hs4, hx4, hy4⟩ := slice2 chave.data 4 hlen (by omega) hdig
  rw [hs4] at hmm1 hmm2
  unfold determine_destination_for_xml
  rw [if_neg (by simp [hlen]), hm]
  simp only []
  rw [if_pos hm2, hs2, hs4, parseI32_pair x2 y2 hx2 hy2, parseU32_pair x4 y4 hx4 hy4]
  simp only []
  rw [if_neg (by omega),
    fromYmdOpt_day1 (2000 + (digitsToNat [x2, y2] : Int)) (digitsToNat [x4, y4])
      (by omega) (by omega)]
  simp only []
  rw [hr]

lemma determine_badmm
    (base : FsPath) (chave : String) (today : Date)
    (hlen : chave.data.length = 44) (hdig : chave.data.all (·.isDigit) = true)
    (hm2 : String.mk ((chave.data.drop 20).take 2) = "55"
         ∨ String.mk ((chave.data.drop 20).take 2) = "57")
    (hbad : digitsToNat ((chave.data.drop 4).take 2) < 1
          ∨ 12 < digitsToNat ((chave.data.drop 4).take 2)) :
    determine_destination_for_xml base chave today = none := by
  obtain ⟨x2, y2, hs2, hx2, hy2⟩ := slice2 chave.data 2 hlen (by omega) hdig
  obtain ⟨x4, y4, hs4, hx4, hy4⟩ := slice2 chave.data 4 hlen (by omega) hdig
  rw [hs4] at hbad
  have hm : ∃ nm, modelTable (String.mk ((chave.data.drop 20).take 2)) = some nm := by
    rcases hm2 with h | h <;> rw [h] <;> exact ⟨_, rfl⟩
  obtain ⟨nm, hm⟩ := hm
  unfold determine_destination_for_xml
  rw [if_neg (by simp [hlen]), hm]
  simp only []
  rw [if_pos hm2, hs2, hs4, parseI32_pair x2 y2 hx2 hy2, parseU32_pair x4 y4 hx4 hy4]
  simp only []
  rw [if_pos hbad]

lemma determine_58
    (base : FsPath) (chave : String) (today : Date)
    (hlen : chave.data.length = 44)
    (hm : String.mk ((chave.data.drop 20).take 2) = "58") :
    determine_destination_for_xml base chave today = some (base ++ ["MDFe"]) := by
  unfold determine_destination_for_xml
  rw [if_neg (by simp [hlen]), hm]
  rfl

lemma determine_65
    (base : FsPath) (chave : String) (today : Date)
    (hlen : chave.data.length = 44)
    (hm : String.mk ((chave.data.drop 20).take 2) = "65") :
    determine_destination_for_xml base chave today = some (base ++ ["NFCe"]) := by
  unfold determine_destination_for_xml
  rw [if_neg (by simp [hlen]), hm]
  rfl

/-! ### Helper lemmas: key extraction -/

lemma chaveScan_characterization (s : List Char) :
    (chaveScan s = none → ∀ i, windowOk (s.drop i) = false) ∧
    (∀ k, chaveScan s = some k →
      ∃ i, windowOk (s.drop i) = true ∧ k = (s.drop i).take 44 ∧
        ∀ j, j < i → windowOk (s.drop j) = false) := by
  induction s with
  | nil =>
    refine ⟨fun _ i => ?_, fun k hk => by simp [chaveScan] at hk⟩
    simp [windowOk]
  | cons c r ih =>
    by_cases h : windowOk (c :: r) = true
    · refine ⟨fun hn => ?_, fun k hk => ?_⟩
      · rw [chaveScan, if_pos h] at hn
        exact absurd hn (by simp)
      · rw [chaveScan, if_pos h] at hk
        refine ⟨0, h, by simpa using hk.symm, fun j hj => absurd hj (by omega)⟩
    · have hb : windowOk (c :: r) = false := by
        revert h
        cases windowOk (c :: r) <;> simp
      have hstep : chaveScan (c :: r) = chaveScan r := by
        rw [chaveScan, if_neg (by simp [hb])]
      refine ⟨fun hn i => ?_, fun k hk => ?_⟩
      · match i with
        | 0 => exact hb
        | Nat.succ i' =>
          rw [List.drop_succ_cons]
          exact ih.1 (hstep ▸ hn) i'
      · rw [hstep] at hk
        obtain ⟨i, hw, hkeq, hleft⟩ := ih.2 k hk
        refine ⟨i + 1, by simpa using hw, by simpa using hkeq, fun j hj => ?_⟩
        match j with
        | 0 => exact hb
        | Nat.succ j' =>
          rw [List.drop_succ_cons]
          exact hleft j' (by omega)

/-! ### Helper lemmas: zip extraction safety -/

lemma containsDD_append (a b : List Char) (h : containsDD (a ++ b) = false) :
    containsDD a = false ∧ containsDD b = false := by
  induction a with
  | nil => exact ⟨rfl, h⟩
  | cons c a' ih =>
    rw [List.cons_append, containsDD] at h
    rw [Bool.or_eq_false_iff] at h
    refine ⟨?_, (ih h.2).2⟩
    rw [containsDD, Bool.or_eq_false_iff]
    refine ⟨?_, (ih h.2).1⟩
    cases a' with
    | nil => simp [containsDD.headIsDot]
    | cons d a'' =>
      have : containsDD.headIsDot (d :: a'' ++ b) = containsDD.headIsDot (d :: a'') := by
        simp [containsDD.headIsDot]
      rw [← this]
      exact h.1

lemma splitAux_no_dd (r : List Char) :
    ∀ acc, containsDD (acc.reverse ++ r) = false →
      ∀ c ∈ splitAux r acc, containsDD c = false := by
  induction r with
  | nil =>
    intro acc h c hc
    simp [splitAux] at hc
    subst hc
    simpa using (containsDD_append _ _ h).1
  | cons c0 r' ih =>
    intro acc h c hc
    rw [splitAux] at hc
    by_cases hsl : c0 = '/'
    · rw [if_pos hsl] at hc
      rcases List.mem_cons.mp hc with hc | hc
      · subst hc
        exact (containsDD_append _ _ h).1
      · refine ih [] ?_ c hc
        have h2 := (containsDD_append _ _ h).2
        subst hsl
        rw [containsDD, Bool.or_eq_false_iff] at h2
        simpa using h2.2
    · rw [if_neg hsl] at hc
      refine ih (c0 :: acc) ?_ c hc
      have : (c0 :: acc).reverse ++ r' = acc.reverse ++ c0 :: r' := by
        simp
      rw [this]
      exact h

lemma splitComps_no_dd (s : List Char) (h : containsDD s = false) :
    ∀ comp ∈ splitComps s, comp ≠ ".." := by
  intro comp hcomp
  simp only [splitComps, List.mem_map, List.mem_filter] at hcomp
  obtain ⟨l, ⟨hl, _⟩, hmk⟩ := hcomp
  have hdd : containsDD l = false := splitAux_no_dd s [] (by simpa using h) l hl
  intro heq
  have : l = ['.', '.'] := by
    have := congrArg String.data (hmk.trans heq)
    simpa using this
  rw [this] at hdd
  exact absurd hdd (by decide)

lemma safe_extract_skip (extractTo : FsPath) (e : ZEntry) (rest : List ZEntry)
    (h : entryUnsafe e = true) :
    safe_extract_zip extractTo (e :: rest) = safe_extract_zip extractTo rest := by
  rw [safe_extract_zip, if_pos h]

lemma safe_extract_inside (extractTo : FsPath) (entries : List ZEntry) :
    (∀ p ∈ (safe_extract_zip extractTo entries).1,
      p.take extractTo.length = extractTo ∧ ∀ comp ∈ p.drop extractTo.length, comp ≠ "..") ∧
    (∀ w ∈ (safe_extract_zip extractTo entries).2,
      w.1.take extractTo.length = extractTo ∧
        ∀ comp ∈ w.1.drop extractTo.length, comp ≠ "..") := by
  induction entries with
  | nil => simp [safe_extract_zip]
  | cons e rest ih =>
    by_cases hu : entryUnsafe e = true
    · rw [safe_extract_skip extractTo e rest hu]
      exact ih
    · have hu' : entryUnsafe e = false := by
        revert hu
        cases entryUnsafe e <;> simp
      have hdd : containsDD e.name.data = false := by
        have := hu'
        rw [entryUnsafe, Bool.or_eq_false_iff] at this
        exact this.1
      have hout : ∀ q, q = extractTo ++ splitComps e.name.data →
          q.take extractTo.length = extractTo ∧
            ∀ comp ∈ q.drop extractTo.length, comp ≠ ".." := by
        rintro q rfl
        refine ⟨List.take_left extractTo _, ?_⟩
        rw [List.drop_left]
        exact splitComps_no_dd e.name.data hdd
      rw [safe_extract_zip, if_neg (by simp [hu'])]
      cases hd : e.isDir with
      | true =>
        simpa using ih
      | false =>
        simp only []
        constructor
        · intro p hp
          rcases List.mem_cons.mp hp with hp | hp
          · exact hout p hp
          · exact ih.1 p hp
        · intro w hw
          rcases List.mem_cons.mp hw with hw | hw
          · subst hw
            exact hout _ rfl
          · exact ih.2 w hw

/-! ### Helper lemmas: copy phase -/

/-- The destination path a task targets: `dest_dir` joined with the
source's base name (with the `"file.xml"` fallback of line 221). -/
def destPathOf (src : SrcFile) (destDir : FsPath) : FsPath :=
  destDir ++ [src.fname.getD "file.xml"]

lemma copy_drop (fs : FS) (errAt : FsPath → Bool) (src : SrcFile) (destDir : FsPath)
    (dryRun : Bool) (h : (fs.lookup (destPathOf src destDir)).isSome = true) :
    copy_file_to_dest fs errAt src destDir dryRun = (none, fs) := by
  rw [destPathOf] at h
  rw [copy_file_to_dest, unique_dest, if_pos h]

lemma lookup_cons_isSome (fs : FS) (p q : FsPath) (c : String)
    (h : (fs.lookup p).isSome = true) :
    ((((q, c)) :: fs).lookup p).isSome = true := by
  rw [List.lookup]
  cases hpq : p == q <;> simp [h]

lemma copy_mono (fs : FS) (errAt : FsPath → Bool) (src : SrcFile) (destDir : FsPath)
    (dryRun : Bool) (p : FsPath) (h : (fs.lookup p).isSome = true) :
    (((copy_file_to_dest fs errAt src destDir dryRun).2).lookup p).isSome = true := by
  rw [copy_file_to_dest]
  rcases hu : unique_dest fs destDir (src.fname.getD "file.xml") with _ | dest
  · exact h
  · cases dryRun
    · cases he : errAt src.path
      · simp only [Bool.false_eq_true, if_false]
        exact lookup_cons_isSome fs p dest _ h
      · simp only [if_true]
        exact h
    · exact h

lemma copy_fs_dry (fs : FS) (errAt : FsPath → Bool) (src : SrcFile) (destDir : FsPath) :
    (copy_file_to_dest fs errAt src destDir true).2 = fs := by
  rw [copy_file_to_dest]
  rcases hu : unique_dest fs destDir (src.fname.getD "file.xml") with _ | dest <;> rfl

lemma copy_creates (fs : FS) (src : SrcFile) (destDir : FsPath) :
    (((copy_file_to_dest fs noErr src destDir false).2).lookup
      (destPathOf src destDir)).isSome = true := by
  rw [copy_file_to_dest]
  rcases hu : unique_dest fs destDir (src.fname.getD "file.xml") with _ | dest
  · rw [unique_dest] at hu
    by_cases h : ((fs.lookup (destDir ++ [src.fname.getD "file.xml"])).isSome) = true
    · exact h
    · rw [if_neg h] at hu
      exact absurd hu (by simp)
  · rw [unique_dest] at hu
    by_cases h : ((fs.lookup (destDir ++ [src.fname.getD "file.xml"])).isSome) = true
    · rw [if_pos h] at hu
      exact absurd hu (by simp)
    · rw [if_neg h] at hu
      have hdest : dest = destDir ++ [src.fname.getD "file.xml"] := by
        simpa using hu.symm
      subst hdest
      simp only [noErr, Bool.false_eq_true, if_false]
      rw [destPathOf, List.lookup]
      simp

lemma runCopies_mono (tasks : List CopyTask) :
    ∀ fs errAt dryRun p, ((fs : FS).lookup p).isSome = true →
      ((runCopies errAt dryRun fs tasks).lookup p).isSome = true := by
  induction tasks with
  | nil => intro fs errAt dryRun p h; exact h
  | cons t rest ih =>
    intro fs errAt dryRun p h
    rw [runCopies]
    exact ih _ errAt dryRun p (copy_mono fs errAt t.src t.destDir dryRun p h)

lemma runCopies_all_exist (tasks : List CopyTask) :
    ∀ fs t, t ∈ tasks →
      ((runCopies noErr false fs tasks).lookup (destPathOf t.src t.destDir)).isSome = true := by
  induction tasks with
  | nil => intro fs t h; exact absurd h (List.not_mem_nil t)
  | cons t0 rest ih =>
    intro fs t h
    rcases List.mem_cons.mp h with h | h
    · subst h
      rw [runCopies]
      exact runCopies_mono rest _ noErr false _ (copy_creates fs t.src t.destDir)
    · rw [runCopies]
      exact ih _ t h

lemma runCopies_noop (tasks : List CopyTask) :
    ∀ fs errAt dryRun, (∀ t ∈ tasks, (fs.lookup (destPathOf t.src t.destDir)).isSome = true) →
      runCopies errAt dryRun fs tasks = fs := by
  induction tasks with
  | nil => intro fs errAt dryRun _; rfl
  | cons t0 rest ih =>
    intro fs errAt dryRun h
    rw [runCopies, copy_drop fs errAt t0.src t0.destDir dryRun (h t0 (List.mem_cons_self t0 rest))]
    exact ih fs errAt dryRun (fun t ht => h t (List.mem_cons_of_mem t0 ht))

lemma runCopies_idem (fs : FS) (tasks : List CopyTask) :
    runCopies noErr false (runCopies noErr false fs tasks) tasks
      = runCopies noErr false fs tasks :=
  runCopies_noop tasks _ noErr false (fun t ht => runCopies_all_exist tasks fs t ht)

lemma runCopies_dry (tasks : List CopyTask) :
    ∀ fs errAt, runCopies errAt true fs tasks = fs := by
  induction tasks with
  | nil => intro fs errAt; rfl
  | cons t rest ih =>
    intro fs errAt
    rw [runCopies, copy_fs_dry fs errAt t.src t.destDir]
    exact ih fs errAt

lemma runCopies_err_head (fs : FS) (errAt : FsPath → Bool) (dryRun : Bool)
    (t : CopyTask) (rest : List CopyTask) (h : errAt t.src.path = true) :
    runCopies errAt dryRun fs (t :: rest) = runCopies errAt dryRun fs rest := by
  rw [runCopies]
  congr 1
  rw [copy_file_to_dest]
  rcases hu : unique_dest fs t.destDir (t.src.fname.getD "file.xml") with _ | dest
  · rfl
  · cases dryRun
    · simp [h]
    · rfl

lemma scanItemsFull_map (base : FsPath) (today : Date) (items : List WalkItem) :
    scanItemsFull base today (items.map ofWalkItem)
      = Except.ok (scanItems base today items) := by
  induction items with
  | nil => rfl
  | cons it rest ih =>
    cases it with
    | reg f =>
      simp only [List.map_cons, ofWalkItem, scanItemsFull, ih, scanItems, tasksOfItem]
    | zipArch res =>
      cases res with
      | error e =>
        simp only [List.map_cons, ofWalkItem, scanItemsFull, ih, scanItems, tasksOfItem,
          List.nil_append]
      | ok members =>
        simp only [List.map_cons, ofWalkItem, scanItemsFull, ih, scanItems, tasksOfItem]

lemma scanItemsFull_extract_err (base : FsPath) (today : Date) (msg : String)
    (items : List WalkItemFull) :
    scanItemsFull base today (WalkItemFull.zipArch (Except.ok (Except.error msg)) :: items)
      = scanItemsFull base today items := by
  rw [scanItemsFull]
  cases h : scanItemsFull base today items with
  | error e => rfl
  | ok ts => rfl

/-! ### Claim theorems -/

/-- C1: for every 44-digit access key whose model field (chars 20..22) is
"55" or "57" and whose month field is in [1,12], classification returns a
type/bucket path with a bucket segment always present; for model "58" or
"65" it returns exactly the type root with no bucket segment. -/
theorem classification_path_shape
    (base : FsPath) (chave : String) (today : Date)
    (hlen : chave.data.length = 44)
    (hdig : chave.data.all (·.isDigit) = true) :
    (today.valid = true →
      (String.mk ((chave.data.drop 20).take 2) = "55"
        ∨ String.mk ((chave.data.drop 20).take 2) = "57") →
      1 ≤ digitsToNat ((chave.data.drop 4).take 2) →
      digitsToNat ((chave.data.drop 4).take 2) ≤ 12 →
      ∃ nm b, modelTable (String.mk ((chave.data.drop 20).take 2)) = some nm ∧
        (b = "Mais de 6 meses" ∨ b = "Menos de 6 meses") ∧
        determine_destination_for_xml base chave today = some (base ++ [nm, b])) ∧
    (String.mk ((chave.data.drop 20).take 2) = "58" →
      determine_destination_for_xml base chave today = some (base ++ ["MDFe"])) ∧
    (String.mk ((chave.data.drop 20).take 2) = "65" →
      determine_destination_for_xml base chave today = some (base ++ ["NFCe"])) := by
  refine ⟨fun hv hm2 hmm1 hmm2 => ?_,
    fun h => determine_58 base chave today hlen h,
    fun h => determine_65 base chave today hlen h⟩
  have hm : ∃ nm, modelTable (String.mk ((chave.data.drop 20).take 2)) = some nm := by
    rcases hm2 with h | h <;> rw [h] <;> exact ⟨_, rfl⟩
  obtain ⟨nm, hm⟩ := hm
  have hd := determine_bucketed base chave today _ nm hlen hdig hm hm2 hmm1 hmm2
    (six_months_eq today hv)
  cases hb : Date.lt ⟨2000 + (digitsToNat ((chave.data.drop 2).take 2) : Int),
      digitsToNat ((chave.data.drop 4).take 2), 1⟩
      ⟨if 6 < today.month then today.year else today.year - 1,
       if 6 < today.month then today.month - 6 else today.month + 6, 1⟩ with
  | false =>
    refine ⟨nm, "Menos de 6 meses", hm, Or.inr rfl, ?_⟩
    rw [hd]
    simp [hb]
  | true =>
    refine ⟨nm, "Mais de 6 meses", hm, Or.inl rfl, ?_⟩
    rw [hd]
    simp [hb]

/-- C1 witness: a concrete NFe key (yy=23, mm=06) classifies to a bucketed
NFe path, at today = 2024-06-15. -/
theorem classification_path_shape_witness :
    ∃ nm b,
      modelTable (String.mk
        ((("00230600000000000000550000000000000000000000" : String).data.drop 20).take 2))
        = some nm ∧
      (b = "Mais de 6 meses" ∨ b = "Menos de 6 meses") ∧
      determine_destination_for_xml ["dest"]
        "00230600000000000000550000000000000000000000" ⟨2024, 6, 15⟩
        = some (["dest"] ++ [nm, b]) :=
  (classification_path_shape ["dest"] "00230600000000000000550000000000000000000000"
    ⟨2024, 6, 15⟩ (by decide) (by decide)).1 (by decide) (Or.inl (by decide))
    (by decide) (by decide)

/-- C2 counterexample: a string that is one run of 45 digits contains no
maximal digit run of length exactly 44, yet find_chave_in_name returns a
key (the first 44 of the 45 digits), contradicting the claim that nothing
is returned for such strings. -/
theorem find_chave_maximal_run_counterexample :
    hasMaximalRun44 (String.mk (List.replicate 45 '1')).data = false ∧
    find_chave_in_name (String.mk (List.replicate 45 '1'))
      = some (String.mk (List.replicate 44 '1')) := by
  constructor
  · decide
  · decide

/-- C2 (amended): find_chave_in_name returns a key exactly when some
position of the string starts 44 consecutive digits; it returns the
44-character window at the leftmost such position — which may lie inside a
longer digit run — and returns nothing only when no position starts 44
consecutive digits. -/
theorem find_chave_leftmost_window (name : String) :
    (find_chave_in_name name = none → ∀ i, windowOk (name.data.drop i) = false) ∧
    (∀ k, find_chave_in_name name = some k →
      ∃ i, windowOk (name.data.drop i) = true ∧
        k = String.mk ((name.data.drop i).take 44) ∧
        ∀ j, j < i → windowOk (name.data.drop j) = false) := by
  have h := chaveScan_characterization name.data
  constructor
  · intro hn i
    apply h.1 ?_ i
    rw [find_chave_in_name] at hn
    cases hc : chaveScan name.data with
    | none => rfl
    | some k' =>
      rw [hc] at hn
      exact absurd hn (by simp)
  · intro k hk
    rw [find_chave_in_name] at hk
    cases hc : chaveScan name.data with
    | none =>
      rw [hc] at hk
      exact absurd hk (by simp)
    | some k' =>
      rw [hc] at hk
      have hk' : String.mk k' = k := by simpa using hk
      obtain ⟨i, hw, hke, hleft⟩ := h.2 k' hc
      refine ⟨i, hw, ?_, hleft⟩
      rw [← hk', hke]

/-- C2 witness: on a concrete name with a single 44-digit run after a
letter, the amended theorem produces the leftmost window. -/
theorem find_chave_leftmost_window_witness :
    ∃ i, windowOk (("z11111111111111111111111111111111111111111111" : String).data.drop i)
        = true ∧
      ("11111111111111111111111111111111111111111111" : String)
        = String.mk
          ((("z11111111111111111111111111111111111111111111" : String).data.drop i).take 44) ∧
      ∀ j, j < i →
        windowOk (("z11111111111111111111111111111111111111111111" : String).data.drop j)
          = false :=
  (find_chave_leftmost_window "z11111111111111111111111111111111111111111111").2
    "11111111111111111111111111111111111111111111" (by decide)

/-- C3: the six-months reference date is the first day of the month six
calendar months before today (modulo-12 month arithmetic, decrementing the
year on underflow); a bucketed key classifies to OlderThan6Months exactly
when its issue date (2000+yy, mm, 1) is strictly earlier than that
reference; concretely, with today = 2024-06-15 the reference is 2023-12-01
and a model-55 key with yy=23, mm=10 goes to NFe/Mais de 6 meses. -/
theorem reference_date_and_bucket :
    (∀ today : Date, today.valid = true →
      six_months_ago_reference today
        = some ⟨if 6 < today.month then today.year else today.year - 1,
                if 6 < today.month then today.month - 6 else today.month + 6, 1⟩) ∧
    (∀ (base : FsPath) (chave : String) (today r : Date) (nm : String),
      chave.data.length = 44 →
      chave.data.all (·.isDigit) = true →
      modelTable (String.mk ((chave.data.drop 20).take 2)) = some nm →
      (String.mk ((chave.data.drop 20).take 2) = "55"
        ∨ String.mk ((chave.data.drop 20).take 2) = "57") →
      1 ≤ digitsToNat ((chave.data.drop 4).take 2) →
      digitsToNat ((chave.data.drop 4).take 2) ≤ 12 →
      six_months_ago_reference today = some r →
      determine_destination_for_xml base chave today
        = some (base ++
            (if Date.lt ⟨2000 + (digitsToNat ((chave.data.drop 2).take 2) : Int),
                        digitsToNat ((chave.data.drop 4).take 2), 1⟩ r
             then [nm, "Mais de 6 meses"] else [nm, "Menos de 6 meses"]))) ∧
    six_months_ago_reference ⟨2024, 6, 15⟩ = some ⟨2023, 12, 1⟩ ∧
    determine_destination_for_xml [] "00231000000000000000550000000000000000000000"
      ⟨2024, 6, 15⟩ = some ["NFe", "Mais de 6 meses"] :=
  ⟨six_months_eq, determine_bucketed, by decide, by decide⟩

/-- C3 witness: the reference-date equation applied at today = 2024-06-15. -/
theorem reference_date_and_bucket_witness :
    six_months_ago_reference ⟨2024, 6, 15⟩ = some ⟨2023, 12, 1⟩ := by
  simpa using reference_date_and_bucket.1 ⟨2024, 6, 15⟩ (by decide)

/-- C4: an archive entry whose stored name contains ".." or is absolute is
skipped (extraction of the remaining entries is unchanged, so it is never
written and never returned), and every extracted or written path lies
under the extraction directory, with no ".." component after it. -/
theorem zip_traversal_defense :
    (∀ (extractTo : FsPath) (e : ZEntry) (rest : List ZEntry), entryUnsafe e = true →
      safe_extract_zip extractTo (e :: rest) = safe_extract_zip extractTo rest) ∧
    (∀ (extractTo : FsPath) (entries : List ZEntry),
      (∀ p ∈ (safe_extract_zip extractTo entries).1,
        p.take extractTo.length = extractTo ∧
          ∀ comp ∈ p.drop extractTo.length, comp ≠ "..") ∧
      (∀ w ∈ (safe_extract_zip extractTo entries).2,
        w.1.take extractTo.length = extractTo ∧
          ∀ comp ∈ w.1.drop extractTo.length, comp ≠ "..")) :=
  ⟨safe_extract_skip, safe_extract_inside⟩

/-- C4 witness: a traversal entry is skipped: extracting it alone equals
extracting the empty archive. -/
theorem zip_traversal_defense_witness :
    safe_extract_zip ["tmp"] [⟨"../../etc/secrets", false, "x"⟩]
      = safe_extract_zip ["tmp"] [] :=
  zip_traversal_defense.1 ["tmp"] ⟨"../../etc/secrets", false, "x"⟩ [] (by decide)

/-- C5: a copy task whose destination name already exists is dropped
silently (no result, filesystem unchanged), and running the whole pipeline
a second time over the same items changes nothing: the second run's
filesystem equals the first run's. -/
theorem collision_drop_idempotent :
    (∀ (fs : FS) (errAt : FsPath → Bool) (src : SrcFile) (destDir : FsPath) (dryRun : Bool),
      (fs.lookup (destPathOf src destDir)).isSome = true →
      copy_file_to_dest fs errAt src destDir dryRun = (none, fs)) ∧
    (∀ (fs : FS) (base : FsPath) (today : Date) (items : List WalkItem),
      (process_root ((process_root fs noErr base today false items).2)
          noErr base today false items).2
        = (process_root fs noErr base today false items).2) :=
  ⟨copy_drop, fun fs base today items => runCopies_idem fs (scanItems base today items)⟩

/-- C5 witness: with `a.xml` already present in the destination directory,
the task for a same-named source is dropped and the filesystem is
unchanged. -/
theorem collision_drop_idempotent_witness :
    copy_file_to_dest [(["d", "a.xml"], "old")] noErr ⟨["r", "a.xml"], some "a.xml"⟩
        ["d"] false
      = (none, [(["d", "a.xml"], "old")]) :=
  collision_drop_idempotent.1 [(["d", "a.xml"], "old")] noErr
    ⟨["r", "a.xml"], some "a.xml"⟩ ["d"] false (by decide)

/-- C6: under dry-run no copy changes the filesystem (per call and for the
whole run), the reported total still counts every queued task, and a run
over one discoverable XML file reports a task count of 1. -/
theorem dry_run_no_writes :
    (∀ (fs : FS) (errAt : FsPath → Bool) (src : SrcFile) (destDir : FsPath),
      (copy_file_to_dest fs errAt src destDir true).2 = fs) ∧
    (∀ (fs : FS) (errAt : FsPath → Bool) (base : FsPath) (today : Date)
        (items : List WalkItem),
      (process_root fs errAt base today true items).2 = fs ∧
      (process_root fs errAt base today true items).1
        = (scanItems base today items).length) ∧
    (∀ (fs : FS) (errAt : FsPath → Bool) (base : FsPath) (today : Date)
        (f : SrcFile) (t : CopyTask),
      tasksOfItem base today (WalkItem.reg f) = [t] →
      (process_root fs errAt base today true [WalkItem.reg f]).1 = 1) := by
  refine ⟨copy_fs_dry, fun fs errAt base today items => ⟨?_, rfl⟩,
    fun fs errAt base today f t h => ?_⟩
  · exact runCopies_dry _ fs errAt
  · show (scanItems base today [WalkItem.reg f]).length = 1
    simp [scanItems, h]

/-- C6 witness: one discoverable XML file, dry run: reported count is 1. -/
theorem dry_run_no_writes_witness :
    (process_root [] noErr [] ⟨2024, 6, 15⟩ true
      [WalkItem.reg ⟨["root", "n.xml"],
        some "nota_00231000000000000000550000000000000000000000.xml"⟩]).1 = 1 :=
  dry_run_no_writes.2.2 [] noErr [] ⟨2024, 6, 15⟩
    ⟨["root", "n.xml"], some "nota_00231000000000000000550000000000000000000000.xml"⟩
    ⟨⟨["root", "n.xml"], some "nota_00231000000000000000550000000000000000000000.xml"⟩,
      ["NFe", "Mais de 6 meses"]⟩ (by decide)

/-- C7: a 44-digit key with model "55" or "57" whose month field is outside
[1,12] is rejected: classification returns nothing, and no copy task is
queued for a file whose name yields that key. -/
theorem invalid_month_rejected
    (base : FsPath) (chave : String) (today : Date)
    (hlen : chave.data.length = 44)
    (hdig : chave.data.all (·.isDigit) = true)
    (hm2 : String.mk ((chave.data.drop 20).take 2) = "55"
         ∨ String.mk ((chave.data.drop 20).take 2) = "57")
    (hbad : digitsToNat ((chave.data.drop 4).take 2) < 1
          ∨ 12 < digitsToNat ((chave.data.drop 4).take 2)) :
    determine_destination_for_xml base chave today = none ∧
    (∀ (f : SrcFile) (name : String), f.fname = some name →
      find_chave_in_name name = some chave →
      tasksOfFile base today f = []) := by
  have hnone := determine_badmm base chave today hlen hdig hm2 hbad
  refine ⟨hnone, fun f name hf hfind => ?_⟩
  rw [tasksOfFile, hf]
  simp only []
  by_cases he : extLower name = "xml"
  · rw [if_pos he, hfind]
    simp only []
    rw [hnone]
  · rw [if_neg he]

/-- C7 witness: a key with mm = "00" is rejected. -/
theorem invalid_month_rejected_witness :
    determine_destination_for_xml []
      "00230000000000000000550000000000000000000000" ⟨2024, 6, 15⟩ = none :=
  (invalid_month_rejected [] "00230000000000000000550000000000000000000000"
    ⟨2024, 6, 15⟩ (by decide) (by decide) (Or.inl (by decide)) (Or.inl (by decide))).1

/-- C8 counterexample: a run in which a per-file error does escape its
unit of work: the temp-dir creation for one zip fails (the `?` at line
255) and the whole run aborts with that error — the later XML file is
never counted and no aggregate task total is reported — while the very
same run with the temp dir succeeding completes and reports total 1. -/
theorem error_containment_counterexample :
    process_root_full [] noErr [] ⟨2024, 6, 15⟩ false
        [WalkItemFull.zipArch (Except.error "tempdir: permission denied"),
         WalkItemFull.reg ⟨["root", "n.xml"],
           some "nota_00231000000000000000550000000000000000000000.xml"⟩]
      = Except.error "tempdir: permission denied" ∧
    process_root_full [] noErr [] ⟨2024, 6, 15⟩ false
        [WalkItemFull.zipArch (Except.ok (Except.ok [])),
         WalkItemFull.reg ⟨["root", "n.xml"],
           some "nota_00231000000000000000550000000000000000000000.xml"⟩]
      = Except.ok (1, [(["NFe", "Mais de 6 meses",
          "nota_00231000000000000000550000000000000000000000.xml"], "")]) :=
  ⟨rfl, rfl⟩

/-- C8 (amended): a failing copy task leaves the filesystem exactly as the
remaining tasks alone would (siblings are unaffected), a failing archive
extraction contributes nothing to the scan while the walk continues, and
whenever every per-archive temp-dir creation succeeds the run completes
and reports as aggregate total the number of queued tasks; but a temp-dir
creation failure while processing a zip escapes the per-file boundary and
aborts the whole run without reporting a count. -/
theorem error_containment_amended :
    (∀ (fs : FS) (errAt : FsPath → Bool) (dryRun : Bool) (t : CopyTask)
        (rest : List CopyTask),
      errAt t.src.path = true →
      runCopies errAt dryRun fs (t :: rest) = runCopies errAt dryRun fs rest) ∧
    (∀ (base : FsPath) (today : Date) (msg : String) (items : List WalkItemFull),
      scanItemsFull base today
          (WalkItemFull.zipArch (Except.ok (Except.error msg)) :: items)
        = scanItemsFull base today items) ∧
    (∀ (fs : FS) (errAt : FsPath → Bool) (base : FsPath) (today : Date)
        (dryRun : Bool) (items : List WalkItem),
      process_root_full fs errAt base today dryRun (items.map ofWalkItem)
        = Except.ok (process_root fs errAt base today dryRun items)) ∧
    (∀ (fs : FS) (errAt : FsPath → Bool) (base : FsPath) (today : Date)
        (dryRun : Bool) (msg : String) (rest : List WalkItemFull),
      process_root_full fs errAt base today dryRun
          (WalkItemFull.zipArch (Except.error msg) :: rest)
        = Except.error msg) ∧
    (∀ (fs : FS) (errAt : FsPath → Bool) (base : FsPath) (today : Date)
        (dryRun : Bool) (items : List WalkItem),
      (process_root fs errAt base today dryRun items).1
        = (scanItems base today items).length) := by
  refine ⟨runCopies_err_head, scanItemsFull_extract_err,
    fun fs errAt base today dryRun items => ?_, fun _ _ _ _ _ _ _ => rfl,
    fun _ _ _ _ _ _ => rfl⟩
  rw [process_root_full, scanItemsFull_map]
  rfl

/-- C8 witness: a task whose copy fails leaves the run equal to the run
without it, and a concrete tempdir-success run refines the total model. -/
theorem error_containment_amended_witness :
    runCopies (fun p => p == ["r", "f.xml"]) false []
        [⟨⟨["r", "f.xml"], some "f.xml"⟩, ["NFe"]⟩]
      = runCopies (fun p => p == ["r", "f.xml"]) false [] [] :=
  error_containment_amended.1 [] (fun p => p == ["r", "f.xml"]) false
    ⟨⟨["r", "f.xml"], some "f.xml"⟩, ["NFe"]⟩ [] (by decide)

/-- C9: six_months_ago_reference is total on valid dates: the normalization
loop leaves the month in [1,12], so the final from_ymd_opt (unwrapped in
the source) always yields a first-of-month date. -/
theorem six_months_reference_total (d : Date) (hv : d.valid = true) :
    ∃ r : Date, six_months_ago_reference d = some r
      ∧ 1 ≤ r.month ∧ r.month ≤ 12 ∧ r.day = 1 := by
  obtain ⟨h1, h2⟩ := date_valid_bounds d hv
  refine ⟨_, six_months_eq d hv, ?_, ?_, rfl⟩
  · show 1 ≤ (if 6 < d.month then d.month - 6 else d.month + 6)
    split <;> omega
  · show (if 6 < d.month then d.month - 6 else d.month + 6) ≤ 12
    split <;> omega

/-- C9 witness: the reference date exists at today = 2024-01-10. -/
theorem six_months_reference_total_witness :
    ∃ r : Date, six_months_ago_reference ⟨2024, 1, 10⟩ = some r
      ∧ 1 ≤ r.month ∧ r.month ≤ 12 ∧ r.day = 1 :=
  six_months_reference_total ⟨2024, 1, 10⟩ (by decide)

/-- C10: a task whose source has no (UTF-8) file name is not failed or
skipped by copy_file_to_dest: it targets the literal name "file.xml", so
any two such tasks in one directory share a destination and the second is
dropped by the collision rule. -/
theorem fallback_file_name (fs : FS) (src : SrcFile) (destDir : FsPath)
    (h : src.fname = none) :
    ((fs.lookup (destDir ++ ["file.xml"])).isSome = true →
      copy_file_to_dest fs noErr src destDir false = (none, fs)) ∧
    ((fs.lookup (destDir ++ ["file.xml"])).isSome = false →
      copy_file_to_dest fs noErr src destDir false
        = (some (Except.ok (destDir ++ ["file.xml"])),
           (destDir ++ ["file.xml"], (fs.lookup src.path).getD "") :: fs)) ∧
    (∀ src2 : SrcFile, src2.fname = none →
      (fs.lookup (destDir ++ ["file.xml"])).isSome = false →
      copy_file_to_dest (copy_file_to_dest fs noErr src destDir false).2
          noErr src2 destDir false
        = (none, (copy_file_to_dest fs noErr src destDir false).2)) := by
  have hwrite : (fs.lookup (destDir ++ ["file.xml"])).isSome = false →
      copy_file_to_dest fs noErr src destDir false
        = (some (Except.ok (destDir ++ ["file.xml"])),
           (destDir ++ ["file.xml"], (fs.lookup src.path).getD "") :: fs) := by
    intro hno
    rw [copy_file_to_dest, h, unique_dest]
    rw [if_neg (by simp [hno])]
    rfl
  refine ⟨fun hyes => ?_, hwrite, fun src2 h2 hno => ?_⟩
  · apply copy_drop
    rw [destPathOf, h]
    exact hyes
  · have hfs1 : (copy_file_to_dest fs noErr src destDir false).2
        = (destDir ++ ["file.xml"], (fs.lookup src.path).getD "") :: fs := by
      rw [hwrite hno]
    apply copy_drop
    rw [destPathOf, h2, hfs1, List.lookup]
    simp

/-- C10 witness: two nameless sources into one directory: the first lands
at file.xml, the second is dropped. -/
theorem fallback_file_name_witness :
    copy_file_to_dest [] noErr ⟨["r", "a"], none⟩ ["d"] false
        = (some (Except.ok (["d"] ++ ["file.xml"])),
           (["d"] ++ ["file.xml"], "") :: ([] : FS)) ∧
    copy_file_to_dest (copy_file_to_dest [] noErr ⟨["r", "a"], none⟩ ["d"] false).2
        noErr ⟨["r", "b"], none⟩ ["d"] false
      = (none, (copy_file_to_dest [] noErr ⟨["r", "a"], none⟩ ["d"] false).2) :=
  ⟨by simpa using (fallback_file_name [] ⟨["r", "a"], none⟩ ["d"] rfl).2.1 rfl,
   (fallback_file_name [] ⟨["r", "a"], none⟩ ["d"] rfl).2.2 ⟨["r", "b"], none⟩ rfl rfl⟩

example : chaveScan (List.replicate 45 '1') = some (List.replicate 44 '1') := by decide
example : hasMaximalRun44 (List.replicate 45 '1') = false := by decide
example : monthNorm 2024 (6 - 6) = (2023, 12) := by decide
example : six_months_ago_reference ⟨2024, 6, 15⟩ = some ⟨2023, 12, 1⟩ := by decide
example : parseU32 ['0', '0'] = some 0 := by decide
example :
    determine_destination_for_xml [] "00240300000000000000550000000000000000000000" ⟨2024, 6, 15⟩
      = some ["NFe", "Menos de 6 meses"] := by decide
example :
    determine_destination_for_xml [] "00231000000000000000550000000000000000000000" ⟨2024, 6, 15⟩
      = some ["NFe", "Mais de 6 meses"] := by decide
example :
    determine_destination_for_xml [] "00230000000000000000550000000000000000000000" ⟨2024, 6, 15⟩
      = none := by decide
example :
    determine_destination_for_xml [] "00239900000000000000580000000000000000000000" ⟨2024, 6, 15⟩
      = some ["MDFe"] := by decide
